import Mathlib

/-!
Shallow embedding of the candle resolution engine of the
price-history-service repository.

Source layout (Python):
  * `app/utils/time.py`        — interval catalog (`SUPPORTED_INTERVALS`,
    `is_supported_interval`).
  * `app/repositories/candle_repository.py` — `CandleRepository.get_candles`
    and the in-memory 1-minute aggregator `_aggregate_1m_candles`.
  * `app/api/price.py`         — the resolution endpoint `get_price_history`
    (cache lookup, persistent path, Binance fallback, cache write).
  * `app/repositories/price_cache.py`, `app/services/binance_client.py` —
    collaborator adapters, modelled as environment inputs.

Numeric prices and volumes are modelled as rationals (the algorithms use
only comparisons, `max`/`min` and `+`, which agree with the source on every
exactly representable input); epoch timestamps are naturals (the source's
timestamps are non-negative epoch seconds / milliseconds, and Python's `//`
agrees with `Nat.div` there).
-/

/-- A candle dictionary as built inside `CandleRepository`
(`{'time': …, 'open': …, 'high': …, 'low': …, 'close': …, 'volume': …}`). -/
structure RepoCandle where
  time : Nat
  «open» : ℚ
  high : ℚ
  low : ℚ
  close : ℚ
  volume : ℚ
  deriving Repr, DecidableEq

/-- Keys of the candle dictionaries that cross the repository/API boundary.
The repository emits keys `time`, `open`, `high`, `low`, `close`, `volume`;
the API layer (`price.py`) reads keys `open_time`, `open`, `high`, `low`,
`close`, `volume`, `close_time`. -/
inductive DKey where
  | time | «open» | high | low | close | volume | open_time | close_time
  deriving Repr, DecidableEq

/-- Dictionary values: integral epoch timestamps or decimal prices. -/
inductive DVal where
  | nat (n : Nat)
  | rat (q : ℚ)
  deriving Repr, DecidableEq

/-- Association-list lookup (Python `dict[key]`, `None` for `KeyError`). -/
def dlookup (k : DKey) : List (DKey × DVal) → Option DVal
  | [] => none
  | (a, v) :: rest => if a = k then some v else dlookup k rest

/-- The dictionary a `RepoCandle` denotes, with the exact keys the
repository writes (`candle_repository.py` lines 151-161 / 212-222). -/
def RepoCandle.toDict (c : RepoCandle) : List (DKey × DVal) :=
  [(DKey.time, DVal.nat c.time),
   (DKey.«open», DVal.rat c.«open»),
   (DKey.high, DVal.rat c.high),
   (DKey.low, DVal.rat c.low),
   (DKey.close, DVal.rat c.close),
   (DKey.volume, DVal.rat c.volume)]

/-- The API-layer candle model (`app/models/candle.py`, class `Candle`). -/
structure Candle where
  open_time : Nat
  «open» : ℚ
  high : ℚ
  low : ℚ
  close : ℚ
  volume : ℚ
  close_time : Nat
  deriving Repr, DecidableEq

/-- `price.py` lines 57-68: `Candle(open_time=c["open_time"], …,
close_time=c["close_time"])` applied to one repository dictionary.  A
missing key (Python `KeyError`) or ill-typed value (pydantic validation)
is `none`. -/
def buildCandle (d : List (DKey × DVal)) : Option Candle := do
  let DVal.nat ot ← dlookup DKey.open_time d | none
  let DVal.rat o ← dlookup DKey.«open» d | none
  let DVal.rat h ← dlookup DKey.high d | none
  let DVal.rat l ← dlookup DKey.low d | none
  let DVal.rat c ← dlookup DKey.close d | none
  let DVal.rat v ← dlookup DKey.volume d | none
  let DVal.nat ct ← dlookup DKey.close_time d | none
  some ⟨ot, o, h, l, c, v, ct⟩

/-- String-keyed association lookup (for the interval maps). -/
def slookup (k : String) : List (String × Nat) → Option Nat
  | [] => none
  | (a, v) :: rest => if a = k then some v else slookup k rest

/-- `app/utils/time.py` lines 4-20: `SUPPORTED_INTERVALS`, durations in
seconds (`timedelta` values converted to seconds; `1M` is 30 days). -/
def SUPPORTED_INTERVALS : List (String × Nat) :=
  [("1m", 60), ("3m", 180), ("5m", 300), ("15m", 900), ("30m", 1800),
   ("1h", 3600), ("2h", 7200), ("4h", 14400), ("6h", 21600), ("8h", 28800),
   ("12h", 43200), ("1d", 86400), ("3d", 259200), ("1w", 604800),
   ("1M", 2592000)]

/-- `app/utils/time.py` lines 23-27: `is_supported_interval`. -/
def is_supported_interval (interval : String) : Bool :=
  (slookup interval SUPPORTED_INTERVALS).isSome

/-- `candle_repository.py` lines 54-56 (also 120-122): `TIMEFRAME_MINUTES`. -/
def TIMEFRAME_MINUTES : List (String × Nat) :=
  [("5m", 5), ("15m", 15), ("1h", 60), ("4h", 240), ("1d", 1440),
   ("1w", 10080)]

/-- `candle_repository.py` lines 67-69: bucket start of a 1-minute candle at
epoch-second `t` for a target width of `m` minutes
(`(t*1000 // (m*60*1000)) * (m*60*1000) // 1000`). -/
def bucketOf (m t : Nat) : Nat :=
  t * 1000 / (m * 60 * 1000) * (m * 60 * 1000) / 1000

/-- One step of the aggregation loop (`candle_repository.py` lines 71-85):
insert candle `c` into the bucket list under bucket key `b`, updating the
bucket in place if it exists (Python dicts preserve insertion order) and
appending a new bucket otherwise. -/
def mergeBucket (b : Nat) (c : RepoCandle) : List RepoCandle → List RepoCandle
  | [] => [⟨b, c.«open», c.high, c.low, c.close, c.volume⟩]
  | a :: rest =>
    if a.time = b then
      ⟨a.time, a.«open», max a.high c.high, min a.low c.low, c.close,
        a.volume + c.volume⟩ :: rest
    else a :: mergeBucket b c rest

/-- The whole grouping loop of `_aggregate_1m_candles`
(`candle_repository.py` lines 62-85): fold every 1-minute candle into its
bucket, in input order. -/
def bucketAgg (m : Nat) (cs : List RepoCandle) : List RepoCandle :=
  cs.foldl (fun acc c => mergeBucket (bucketOf m c.time) c acc) []

/-- Order used by `sorted(aggregated.values(), key=lambda x: x['time'])`. -/
def timeLE (a b : RepoCandle) : Prop := a.time ≤ b.time

instance : DecidableRel timeLE := fun a b => Nat.decLe a.time b.time

instance : IsTotal RepoCandle timeLE := ⟨fun a b => Nat.le_total a.time b.time⟩

instance : IsTrans RepoCandle timeLE := ⟨fun _ _ _ => Nat.le_trans⟩

/-- `candle_repository.py` line 88: sort buckets ascending by time. -/
def sortByTime (cs : List RepoCandle) : List RepoCandle :=
  cs.insertionSort timeLE

/-- Last `n` elements of a list (Python `xs[-n:]` for `n > 0`; also the
result of `ORDER BY timestamp DESC LIMIT n` followed by `reversed`). -/
def takeLast (n : Nat) (xs : List α) : List α := xs.drop (xs.length - n)

/-- Core of `_aggregate_1m_candles` for a bucket width of `m` minutes
(`candle_repository.py` lines 62-89): group, sort ascending, keep the most
recent `limit` buckets (`result[-limit:] if len(result) > limit else
result`). -/
def aggregateWith (m limit : Nat) (cs : List RepoCandle) : List RepoCandle :=
  let r := sortByTime (bucketAgg m cs)
  if limit < r.length then takeLast limit r else r

/-- `CandleRepository._aggregate_1m_candles` (`candle_repository.py`
lines 39-89): resolve the interval through `TIMEFRAME_MINUTES`
(lines 58-60, `return []` when absent), then run the grouping fold. -/
def aggregate_1m_candles (cs : List RepoCandle) (interval : String)
    (limit : Nat) : List RepoCandle :=
  match slookup interval TIMEFRAME_MINUTES with
  | none => []
  | some m => aggregateWith m limit cs

/-- The current (still open) 1-minute candle read from Redis key
`current_candle:{symbol}:1m` (JSON with keys `time`, `open`, `high`, `low`,
`close`, `volume`). -/
structure Fresh1m where
  time : Nat
  «open» : ℚ
  high : ℚ
  low : ℚ
  close : ℚ
  volume : ℚ
  deriving Repr, DecidableEq

/-- The candle dictionary appended for the fresh candle
(`candle_repository.py` lines 175-182 / 234-241). -/
def Fresh1m.toRepo (f : Fresh1m) : RepoCandle :=
  ⟨f.time, f.«open», f.high, f.low, f.close, f.volume⟩

/-- Merge of the fresh candle into the candle list
(`candle_repository.py` lines 163-184 / 224-243): outer `none` = no Redis
value, `some none` = present but unparsable (warning printed, skipped),
`some (some f)` = parsed; appended only when no candle already carries its
timestamp. -/
def mergeFresh (fresh : Option (Option Fresh1m)) (cs : List RepoCandle) :
    List RepoCandle :=
  match fresh with
  | none => cs
  | some none => cs
  | some (some f) =>
    if cs.any (fun c => c.time == f.time) then cs else cs ++ [f.toRepo]

/-- One row of a Binance kline (`k[0]`=open time, `k[1..5]`=open, high,
low, close, volume as decimal strings, `k[6]`=close time); the `float(…)`
coercions of `price.py` lines 100-111 are modelled as identities on the
rational payloads. -/
structure Kline where
  openTime : Nat
  «open» : ℚ
  high : ℚ
  low : ℚ
  close : ℚ
  volume : ℚ
  closeTime : Nat
  deriving Repr, DecidableEq

/-- `price.py` lines 100-111: normalize one upstream kline into a `Candle`. -/
def normKline (k : Kline) : Candle :=
  ⟨k.openTime, k.«open», k.high, k.low, k.close, k.volume, k.closeTime⟩

/-- Python's `symbol.upper()` (ASCII uppercasing, `price.py` lines 71 and
114). -/
def upper (s : String) : String := ⟨s.data.map Char.toUpper⟩

/-- `app/models/candle.py`, class `CandleResponse`. -/
structure CandleResponse where
  symbol : String
  interval : String
  candles : List Candle
  deriving Repr, DecidableEq

/-- External state visible to one resolution: cache contents, coin lookup,
stored ascending 1-minute candles, fresh-candle snapshot, and the behaviour
of the fallible collaborators. -/
structure Env where
  /-- `cache.get(symbol, interval)`: the cached response, if any. -/
  cached : Option CandleResponse
  /-- `get_coin_id(symbol)`: the coin id, `none` when the symbol is absent. -/
  coinId : Option Nat
  /-- All stored closed 1-minute candles for the coin, ascending by time;
  `ORDER BY timestamp DESC LIMIT n` + `reversed` yields the last `n`. -/
  db1m : List RepoCandle
  /-- Redis `current_candle:{symbol}:1m` (see `mergeFresh`). -/
  fresh : Option (Option Fresh1m)
  /-- Whether the TimescaleDB query raises (caught by `price.py` line 93). -/
  dbFails : Bool
  /-- `binance.get_klines`: `none` when the HTTP call raises. -/
  klines : Option (List Kline)
  /-- Whether `cache.set` raises. -/
  cacheSetFails : Bool
  deriving Repr, DecidableEq

/-- `CandleRepository.get_candles` (`candle_repository.py` lines 91-245):
coin lookup (empty on unknown symbol, line 115-116); for non-1m intervals
fetch `limit * interval_minutes` recent 1-minute candles (default minutes
5, line 123), merge the fresh candle, return empty when nothing was
gathered, else aggregate; for 1m fetch `limit` recent candles and merge the
fresh candle. -/
def get_candles (env : Env) (interval : String) (limit : Nat) :
    List RepoCandle :=
  match env.coinId with
  | none => []
  | some _ =>
    if interval = "1m" then
      mergeFresh env.fresh (takeLast limit env.db1m)
    else
      let m := (slookup interval TIMEFRAME_MINUTES).getD 5
      let merged := mergeFresh env.fresh (takeLast (limit * m) env.db1m)
      if merged.isEmpty then [] else aggregate_1m_candles merged interval limit

/-- `price.py` lines 34-44: per-interval default limits (`limit_map`,
default 500). -/
def limit_map : List (String × Nat) :=
  [("1m", 1000), ("5m", 864), ("15m", 672), ("1h", 720), ("4h", 540),
   ("1d", 365), ("1w", 156)]

/-- `price.py` lines 77-86 and 120-124: per-interval cache TTLs
(`ttl_map`, default 60). -/
def ttl_map : List (String × Nat) :=
  [("1m", 5), ("5m", 10), ("15m", 30), ("1h", 60), ("4h", 300),
   ("1d", 600), ("1w", 1800)]

/-- Which exception terminated the request. -/
inductive ErrKind where
  /-- `binance.get_klines` raised (`UpstreamUnavailable`). -/
  | upstreamFailed
  /-- The uncaught `cache.set` of the fallback path raised. -/
  | cacheSetFailed
  deriving Repr, DecidableEq

/-- What the endpoint produces. -/
inductive Outcome where
  /-- HTTP 400 `Unsupported interval`. -/
  | unsupported
  /-- A candle-series response body. -/
  | response (r : CandleResponse)
  /-- An uncaught exception (HTTP 5xx). -/
  | err (e : ErrKind)
  deriving Repr, DecidableEq

/-- Collaborator invocations performed by one resolution; `cacheWrites`
records the TTL of every attempted `cache.set`. -/
structure Effects where
  cacheReads : Nat
  dbQueries : Nat
  upstreamCalls : Nat
  cacheWrites : List Nat
  deriving Repr, DecidableEq

/-- No collaborator touched. -/
def Effects.none : Effects := ⟨0, 0, 0, []⟩

/-- Map `buildCandle` over every repository dictionary, failing on the
first `KeyError` (`price.py` lines 57-68: the list comprehension raises as
soon as one dictionary lacks a key). -/
def buildCandles (cs : List RepoCandle) : Option (List Candle) :=
  match cs with
  | [] => some []
  | c :: rest =>
    match buildCandle c.toDict, buildCandles rest with
    | some b, some bs => some (b :: bs)
    | _, _ => none

/-- `price.py` lines 97-128: the Binance fallback tail of the endpoint —
fetch klines (`UpstreamUnavailable` when the call raises), normalize, wrap,
then `cache.set` with the interval TTL (this `await cache.set` is *not*
inside a `try`, so its failure propagates to the caller), and return. -/
def fallbackPath (env : Env) (symbol interval : String) (eff : Effects) :
    Outcome × Effects :=
  match env.klines with
  | none =>
    (Outcome.err ErrKind.upstreamFailed,
      { eff with upstreamCalls := eff.upstreamCalls + 1 })
  | some ks =>
    let resp : CandleResponse :=
      ⟨upper symbol, interval, ks.map normKline⟩
    let ttl := (slookup interval ttl_map).getD 60
    let eff' := { eff with upstreamCalls := eff.upstreamCalls + 1,
                           cacheWrites := eff.cacheWrites ++ [ttl] }
    if env.cacheSetFails then (Outcome.err ErrKind.cacheSetFailed, eff')
    else (Outcome.response resp, eff')

/-- `get_price_history` (`price.py` lines 17-128): validate the interval;
default the limit; consult the response cache; try the persistent path —
repository query, conversion to `Candle` models, response construction,
`cache.set` with the interval TTL — where any raised exception (database
failure, the `KeyError` of the model conversion, or the cache write) is
caught at line 93 and falls through; finally the Binance fallback. -/
def get_price_history (env : Env) (symbol interval : String)
    (limit? : Option Nat) : Outcome × Effects :=
  if ¬ is_supported_interval interval then (Outcome.unsupported, Effects.none)
  else
    let limit := limit?.getD ((slookup interval limit_map).getD 500)
    let effC : Effects := { Effects.none with cacheReads := 1 }
    match env.cached with
    | some r => (Outcome.response r, effC)
    | none =>
      let effD := { effC with dbQueries := 1 }
      if env.dbFails then fallbackPath env symbol interval effD
      else
        let cd := get_candles env interval limit
        if cd.isEmpty then fallbackPath env symbol interval effD
        else
          match buildCandles cd with
          | none => fallbackPath env symbol interval effD
          | some cs =>
            let resp : CandleResponse := ⟨upper symbol, interval, cs⟩
            let ttl := (slookup interval ttl_map).getD 60
            let effW := { effD with cacheWrites := effD.cacheWrites ++ [ttl] }
            if env.cacheSetFails then fallbackPath env symbol interval effW
            else (Outcome.response resp, effW)

/-! ### Aggregator theory -/

/-- The candles of `cs` that fall into bucket `b` (in input order). -/
def inBucket (m b : Nat) (cs : List RepoCandle) : List RepoCandle :=
  cs.filter (fun c => bucketOf m c.time == b)

/-- First entry of the accumulator that carries bucket key `b`. -/
def findB (b : Nat) (acc : List RepoCandle) : Option RepoCandle :=
  acc.find? (fun a => a.time == b)

/-- A freshly opened bucket (`candle_repository.py` lines 72-79). -/
def initB (b : Nat) (c : RepoCandle) : RepoCandle :=
  ⟨b, c.«open», c.high, c.low, c.close, c.volume⟩

/-- Folding one more candle into an open bucket (lines 81-85). -/
def combine (a c : RepoCandle) : RepoCandle :=
  ⟨a.time, a.«open», max a.high c.high, min a.low c.low, c.close,
    a.volume + c.volume⟩

/-- One candle's effect on the value stored for a fixed bucket. -/
def stepB (b : Nat) (o : Option RepoCandle) (c : RepoCandle) :
    Option RepoCandle :=
  some (match o with | none => initB b c | some a => combine a c)

/-- Value stored for bucket `b` after folding `fs`, starting from `o`. -/
def foldBucketFrom (b : Nat) (o : Option RepoCandle) (fs : List RepoCandle) :
    Option RepoCandle :=
  fs.foldl (stepB b) o

/-- Fold a whole list into one open bucket value. -/
def combineAll (a : RepoCandle) (fs : List RepoCandle) : RepoCandle :=
  fs.foldl combine a

/-- Maximum of a list of rationals (`0` on `[]`, which never arises). -/
def qmax : List ℚ → ℚ
  | [] => 0
  | q :: qs => qs.foldl max q

/-- Minimum of a list of rationals (`0` on `[]`, which never arises). -/
def qmin : List ℚ → ℚ
  | [] => 0
  | q :: qs => qs.foldl min q

/-- The first candle's open of a series. -/
def firstOpen (fs : List RepoCandle) : Option ℚ :=
  fs.head?.map RepoCandle.«open»

/-- The last candle's close of a series. -/
def lastClose (fs : List RepoCandle) : Option ℚ :=
  fs.getLast?.map RepoCandle.close

/-- Strict ascending-time order (the `CandleSeries` invariant: ascending,
no duplicate `open_time`). -/
def timeLT (a b : RepoCandle) : Prop := a.time < b.time

instance : DecidableRel timeLT := fun a b => Nat.decLt a.time b.time

/-- The spec's aggregation scenario input: three 1-minute candles at 0s,
60s and 120s. -/
def specCandles1m : List RepoCandle :=
  [⟨0, 100, 105, 99, 103, 10⟩, ⟨60, 103, 108, 102, 107, 12⟩,
   ⟨120, 107, 107, 104, 105, 8⟩]

/-- An unordered 1-minute list with a duplicated timestamp (for C9). -/
def unorderedCandles1m : List RepoCandle :=
  [⟨120, 1, 1, 1, 1, 1⟩, ⟨0, 2, 2, 2, 2, 2⟩, ⟨120, 3, 3, 3, 3, 3⟩,
   ⟨700, 4, 4, 4, 4, 4⟩]

/-- An environment with nothing cached, no coin, no data. -/
def emptyEnv : Env := ⟨none, none, [], none, false, none, false⟩

/-- An environment whose symbol is unknown but whose upstream succeeds. -/
def unknownSymbolEnv : Env :=
  ⟨none, none, [], none, false, some [⟨0, 1, 2, 1, 2, 3, 59999⟩], false⟩

/-- An environment holding 1-minute data for a known coin. -/
def storedDataEnv : Env :=
  ⟨none, some 1, specCandles1m, none, false,
    some [⟨0, 1, 2, 1, 2, 3, 59999⟩], false⟩

/-- An environment with one stored 1-minute candle for a known coin, a
response-cache miss, and a healthy upstream. -/
def dbOneCandleEnv : Env :=
  ⟨none, some 1, [⟨0, 100, 105, 99, 103, 10⟩], none, false,
    some [⟨0, 1, 2, 1, 2, 3, 59999⟩], false⟩

/-- An environment whose fallback path is reached (unknown symbol) and
whose cache write raises. -/
def cacheFailEnv : Env :=
  ⟨none, none, [], none, false, some [⟨0, 1, 2, 1, 2, 3, 59999⟩], true⟩

/-- Stored candles at 0s and 60s, fresh candle at 120s: the fresh candle
sits inside the (still unfinished) 5-minute bucket that starts at 0. -/
def midBucketFreshEnv : Env :=
  ⟨none, some 1,
    [⟨0, 100, 105, 99, 103, 10⟩, ⟨60, 103, 108, 102, 107, 12⟩],
    some (some ⟨120, 107, 107, 104, 105, 8⟩), false, none, false⟩

/-- Stored 1-minute candle at 0s, fresh candle at 60s. -/
def freshAppendEnv : Env :=
  ⟨none, some 1, [⟨0, 100, 105, 99, 103, 10⟩],
    some (some ⟨60, 103, 108, 102, 107, 12⟩), false, none, false⟩

/-- A stale fresh candle (0s) behind the stored candle (60s). -/
def staleFreshEnv : Env :=
  ⟨none, some 1, [⟨60, 103, 108, 102, 107, 12⟩],
    some (some ⟨0, 100, 105, 99, 103, 10⟩), false, none, false⟩

theorem findB_mergeBucket_self (b : Nat) (c : RepoCandle) :
    ∀ acc : List RepoCandle,
      findB b (mergeBucket b c acc) =
        some (match findB b acc with
              | none => initB b c
              | some a => combine a c)
  | [] => by simp [findB, mergeBucket, List.find?, initB]
  | a :: rest => by
    by_cases h : a.time = b
    · simp [mergeBucket, h, findB, List.find?, combine]
    · have hb : (a.time == b) = false := by simp [h]
      simp only [mergeBucket, if_neg h, findB, List.find?, hb]
      exact findB_mergeBucket_self b c rest

theorem findB_mergeBucket_other (b b' : Nat) (hne : b' ≠ b)
    (c : RepoCandle) :
    ∀ acc : List RepoCandle,
      findB b' (mergeBucket b c acc) = findB b' acc
  | [] => by
    have : (b == b') = false := by simp [Ne.symm hne]
    simp [findB, mergeBucket, List.find?, initB, this]
  | a :: rest => by
    by_cases h : a.time = b
    · have h1 : (a.time == b') = false := by simp [h, Ne.symm hne]
      have h2 : (b == b') = false := by simp [Ne.symm hne]
      simp [mergeBucket, h, findB, List.find?, h1, h2, combine]
    · simp only [mergeBucket, if_neg h, findB, List.find?]
      cases hab : (a.time == b') with
      | true => rfl
      | false => exact findB_mergeBucket_other b b' hne c rest

theorem mergeBucket_map_time (b : Nat) (c : RepoCandle) :
    ∀ acc : List RepoCandle,
      (mergeBucket b c acc).map RepoCandle.time =
        if b ∈ acc.map RepoCandle.time then acc.map RepoCandle.time
        else acc.map RepoCandle.time ++ [b]
  | [] => by simp [mergeBucket, initB]
  | a :: rest => by
    by_cases h : a.time = b
    · simp [mergeBucket, h, combine]
    · have hm : (b ∈ (a :: rest).map RepoCandle.time) ↔
          b ∈ rest.map RepoCandle.time := by
        simp [List.mem_cons, Ne.symm h]
      by_cases hb : b ∈ rest.map RepoCandle.time
      · rw [if_pos (hm.mpr hb)]
        simp only [mergeBucket, if_neg h, List.map_cons,
          mergeBucket_map_time b c rest, if_pos hb]
      · rw [if_neg (fun hx => hb (hm.mp hx))]
        simp only [mergeBucket, if_neg h, List.map_cons,
          mergeBucket_map_time b c rest, if_neg hb]
        simp

theorem mergeBucket_nodup_time (b : Nat) (c : RepoCandle)
    (acc : List RepoCandle) (h : (acc.map RepoCandle.time).Nodup) :
    ((mergeBucket b c acc).map RepoCandle.time).Nodup := by
  rw [mergeBucket_map_time]
  by_cases hb : b ∈ acc.map RepoCandle.time
  · simpa [hb] using h
  · simp [hb, List.nodup_append, h]

theorem foldAgg_findB (m : Nat) :
    ∀ (cs acc : List RepoCandle) (b : Nat),
      findB b (cs.foldl (fun acc c => mergeBucket (bucketOf m c.time) c acc)
          acc) =
        foldBucketFrom b (findB b acc) (inBucket m b cs)
  | [], acc, b => by simp [inBucket, foldBucketFrom]
  | c :: rest, acc, b => by
    simp only [List.foldl_cons]
    rw [foldAgg_findB m rest]
    by_cases h : bucketOf m c.time = b
    · have hfilter : inBucket m b (c :: rest) = c :: inBucket m b rest := by
        simp [inBucket, List.filter_cons, h]
      rw [hfilter, h, findB_mergeBucket_self]
      rfl
    · have hfilter : inBucket m b (c :: rest) = inBucket m b rest := by
        simp [inBucket, List.filter_cons, h]
      rw [hfilter, findB_mergeBucket_other (bucketOf m c.time) b
        (fun hx => h hx.symm)]

theorem bucketAgg_findB (m : Nat) (cs : List RepoCandle) (b : Nat) :
    findB b (bucketAgg m cs) = foldBucketFrom b none (inBucket m b cs) := by
  have := foldAgg_findB m cs [] b
  simpa [bucketAgg, findB, List.find?] using this

theorem bucketAgg_nodup_time (m : Nat) (cs : List RepoCandle) :
    ((bucketAgg m cs).map RepoCandle.time).Nodup := by
  have go : ∀ (cs acc : List RepoCandle),
      (acc.map RepoCandle.time).Nodup →
      (((cs.foldl (fun acc c => mergeBucket (bucketOf m c.time) c acc)
          acc)).map RepoCandle.time).Nodup := by
    intro cs
    induction cs with
    | nil => intro acc h; simpa using h
    | cons c rest ih =>
      intro acc h
      simp only [List.foldl_cons]
      exact ih _ (mergeBucket_nodup_time _ _ _ h)
  simpa [bucketAgg] using go cs [] (by simp)

theorem combineAll_time (fs : List RepoCandle) :
    ∀ a : RepoCandle, (combineAll a fs).time = a.time := by
  induction fs with
  | nil => intro a; rfl
  | cons c rest ih => intro a; exact ih (combine a c)

theorem combineAll_open (fs : List RepoCandle) :
    ∀ a : RepoCandle, (combineAll a fs).«open» = a.«open» := by
  induction fs with
  | nil => intro a; rfl
  | cons c rest ih => intro a; exact ih (combine a c)

theorem combineAll_high (fs : List RepoCandle) :
    ∀ a : RepoCandle,
      (combineAll a fs).high = (fs.map RepoCandle.high).foldl max a.high := by
  induction fs with
  | nil => intro a; rfl
  | cons c rest ih => intro a; exact ih (combine a c)

theorem combineAll_low (fs : List RepoCandle) :
    ∀ a : RepoCandle,
      (combineAll a fs).low = (fs.map RepoCandle.low).foldl min a.low := by
  induction fs with
  | nil => intro a; rfl
  | cons c rest ih => intro a; exact ih (combine a c)

theorem combineAll_volume (fs : List RepoCandle) :
    ∀ a : RepoCandle,
      (combineAll a fs).volume = a.volume + (fs.map RepoCandle.volume).sum := by
  induction fs with
  | nil => intro a; simp [combineAll]
  | cons c rest ih =>
    intro a
    have : (combineAll a (c :: rest)) = combineAll (combine a c) rest := rfl
    rw [this, ih (combine a c)]
    simp [combine, add_assoc]

theorem combineAll_close (fs : List RepoCandle) :
    ∀ a : RepoCandle,
      (combineAll a fs).close = (lastClose fs).getD a.close := by
  induction fs with
  | nil => intro a; simp [combineAll, lastClose]
  | cons c rest ih =>
    intro a
    have h1 : (combineAll a (c :: rest)) = combineAll (combine a c) rest := rfl
    rw [h1, ih (combine a c)]
    have h2 : (combine a c).close = c.close := rfl
    rw [h2]
    cases rest with
    | nil => simp [lastClose]
    | cons r rs =>
      have h3 : lastClose (c :: r :: rs) = lastClose (r :: rs) := by
        simp [lastClose, List.getLast?_cons_cons]
      rw [h3]
      have h4 : (lastClose (r :: rs)).isSome := by
        simp [lastClose, List.getLast?_cons]
      obtain ⟨v, hv⟩ := Option.isSome_iff_exists.mp h4
      simp [hv]

theorem foldBucketFrom_some (b : Nat) (fs : List RepoCandle) :
    ∀ a : RepoCandle, foldBucketFrom b (some a) fs = some (combineAll a fs) := by
  induction fs with
  | nil => intro a; rfl
  | cons c rest ih => intro a; exact ih (combine a c)

theorem foldBucketFrom_cons (b : Nat) (c : RepoCandle) (rest : List RepoCandle) :
    foldBucketFrom b none (c :: rest) = some (combineAll (initB b c) rest) :=
  foldBucketFrom_some b rest (initB b c)

theorem foldBucketFrom_isSome (b : Nat) (fs : List RepoCandle) (hfs : fs ≠ []) :
    (foldBucketFrom b none fs).isSome := by
  cases fs with
  | nil => exact absurd rfl hfs
  | cons c rest => rw [foldBucketFrom_cons]; rfl

/-- Every entry of the grouping fold's output summarises exactly the
in-bucket candles, by the fold of §4.2: open of the first, max of highs,
min of lows, close of the last, sum of volumes. -/
theorem bucketAgg_summary (m : Nat) (cs : List RepoCandle) (a : RepoCandle)
    (ha : a ∈ bucketAgg m cs) :
    inBucket m a.time cs ≠ [] ∧
    firstOpen (inBucket m a.time cs) = some a.«open» ∧
    a.high = qmax ((inBucket m a.time cs).map RepoCandle.high) ∧
    a.low = qmin ((inBucket m a.time cs).map RepoCandle.low) ∧
    lastClose (inBucket m a.time cs) = some a.close ∧
    a.volume = ((inBucket m a.time cs).map RepoCandle.volume).sum := by
  have hnd := bucketAgg_nodup_time m cs
  have hfind : findB a.time (bucketAgg m cs) = some a := by
    have go : ∀ (acc : List RepoCandle), (acc.map RepoCandle.time).Nodup →
        a ∈ acc → findB a.time acc = some a := by
      intro acc
      induction acc with
      | nil => intro _ h; cases h
      | cons x rest ih =>
        intro hnodup hmem
        rcases List.mem_cons.mp hmem with rfl | hmem'
        · simp [findB, List.find?]
        · have hx : x.time ≠ a.time := by
            intro hEq
            have : x.time ∈ rest.map RepoCandle.time :=
              hEq ▸ List.mem_map.mpr ⟨a, hmem', rfl⟩
            exact (List.nodup_cons.mp (by simpa using hnodup)).1 this
          have hxb : (x.time == a.time) = false := by simp [hx]
          simp only [findB, List.find?, hxb]
          exact ih (List.nodup_cons.mp (by simpa using hnodup)).2 hmem'
    exact go (bucketAgg m cs) (bucketAgg_nodup_time m cs) ha
  rw [bucketAgg_findB] at hfind
  cases hfs : inBucket m a.time cs with
  | nil => rw [hfs] at hfind; cases hfind
  | cons c rest =>
    rw [hfs, foldBucketFrom_cons] at hfind
    have hA : a = combineAll (initB a.time c) rest := (Option.some_inj.mp hfind).symm
    refine ⟨by simp, ?_, ?_, ?_, ?_, ?_⟩
    · have : a.«open» = c.«open» := by
        rw [hA, combineAll_open]; rfl
      simp [firstOpen, this]
    · rw [hA, combineAll_high]; rfl
    · rw [hA, combineAll_low]; rfl
    · have : a.close = (lastClose rest).getD c.close := by
        rw [hA, combineAll_close]; rfl
      rw [this]
      cases hL : rest.getLast? with
      | none => simp [lastClose, List.getLast?_cons, hL]
      | some v => simp [lastClose, List.getLast?_cons, hL]
    · rw [hA, combineAll_volume]
      simp [initB]

/-- The source's millisecond round-trip equals plain flooring in seconds:
`(t*1000 // (m*60*1000)) * (m*60*1000) // 1000 = (t // (m*60)) * (m*60)`. -/
theorem bucketOf_eq_floor (m t : Nat) :
    bucketOf m t = t / (m * 60) * (m * 60) := by
  unfold bucketOf
  rw [Nat.mul_div_mul_right t (m * 60) (by norm_num : (0:Nat) < 1000)]
  have h : t / (m * 60) * (m * 60 * 1000) = t / (m * 60) * (m * 60) * 1000 := by
    ring
  rw [h, Nat.mul_div_cancel _ (by norm_num : (0:Nat) < 1000)]

theorem mem_inBucket_bucketOf {m b : Nat} {cs : List RepoCandle}
    {c : RepoCandle} (hc : c ∈ inBucket m b cs) : bucketOf m c.time = b := by
  have := List.of_mem_filter hc
  simpa using this

theorem sortByTime_perm (l : List RepoCandle) : (sortByTime l).Perm l :=
  List.perm_insertionSort timeLE l

theorem sortByTime_pairwise_le (l : List RepoCandle) :
    (sortByTime l).Pairwise timeLE :=
  List.sorted_insertionSort timeLE l

theorem pairwise_lt_of_le_nodup {l : List RepoCandle}
    (hle : l.Pairwise timeLE) (hnd : (l.map RepoCandle.time).Nodup) :
    l.Pairwise timeLT := by
  have hne : l.Pairwise (fun a b : RepoCandle => a.time ≠ b.time) :=
    (List.pairwise_map).mp hnd
  exact (hle.and hne).imp (fun h => lt_of_le_of_ne h.1 h.2)

/-- The sorted bucket list is strictly ascending in time. -/
theorem sorted_bucketAgg_pairwise (m : Nat) (cs : List RepoCandle) :
    (sortByTime (bucketAgg m cs)).Pairwise timeLT := by
  refine pairwise_lt_of_le_nodup (sortByTime_pairwise_le _) ?_
  have hp := (sortByTime_perm (bucketAgg m cs)).map RepoCandle.time
  exact hp.nodup_iff.mpr (bucketAgg_nodup_time m cs)

theorem takeLast_sublist (n : Nat) (xs : List α) :
    List.Sublist (takeLast n xs) xs :=
  List.drop_sublist _ xs

theorem aggregateWith_pairwise (m limit : Nat) (cs : List RepoCandle) :
    (aggregateWith m limit cs).Pairwise timeLT := by
  unfold aggregateWith
  by_cases h : limit < (sortByTime (bucketAgg m cs)).length
  · simp only [if_pos h]
    exact (sorted_bucketAgg_pairwise m cs).sublist (takeLast_sublist _ _)
  · simp only [if_neg h]
    exact sorted_bucketAgg_pairwise m cs

theorem takeLast_length (n : Nat) (xs : List α) :
    (takeLast n xs).length = xs.length - (xs.length - n) := by
  simp [takeLast]

theorem aggregateWith_length (m limit : Nat) (cs : List RepoCandle) :
    (aggregateWith m limit cs).length ≤ limit := by
  unfold aggregateWith
  by_cases h : limit < (sortByTime (bucketAgg m cs)).length
  · simp only [if_pos h]
    rw [takeLast_length]
    omega
  · simp only [if_neg h]
    omega

theorem mem_aggregateWith {m limit : Nat} {cs : List RepoCandle}
    {a : RepoCandle} (ha : a ∈ aggregateWith m limit cs) :
    a ∈ bucketAgg m cs := by
  unfold aggregateWith at ha
  by_cases h : limit < (sortByTime (bucketAgg m cs)).length
  · rw [if_pos h] at ha
    exact (sortByTime_perm _).mem_iff.mp ((takeLast_sublist _ _).mem ha)
  · rw [if_neg h] at ha
    exact (sortByTime_perm _).mem_iff.mp ha

theorem bucketAgg_mem_time_iff (m : Nat) (cs : List RepoCandle) (b : Nat) :
    (∃ a ∈ bucketAgg m cs, a.time = b) ↔ inBucket m b cs ≠ [] := by
  constructor
  · rintro ⟨a, haMem, rfl⟩
    intro hnil
    have := bucketAgg_findB m cs a.time
    rw [hnil] at this
    have hfind : findB a.time (bucketAgg m cs) = none := this
    have : (findB a.time (bucketAgg m cs)).isSome := by
      unfold findB
      rw [List.find?_isSome]
      exact ⟨a, haMem, by simp⟩
    rw [hfind] at this
    cases this
  · intro hne
    have hsome : (foldBucketFrom b none (inBucket m b cs)).isSome :=
      foldBucketFrom_isSome b _ hne
    rw [← bucketAgg_findB] at hsome
    obtain ⟨a, ha⟩ := Option.isSome_iff_exists.mp hsome
    have ha' : List.find? (fun x => x.time == b) (bucketAgg m cs) = some a := ha
    have hmem := List.mem_of_find?_eq_some ha'
    have htime := List.find?_some ha'
    exact ⟨a, hmem, by simpa using htime⟩

/-- Bucket selection: every nonempty input bucket either survives into the
output, or the output is full (`limit` entries) and consists only of more
recent buckets. -/
theorem aggregateWith_keeps_recent (m limit : Nat) (cs : List RepoCandle)
    (b : Nat) (hne : inBucket m b cs ≠ []) :
    (∃ a ∈ aggregateWith m limit cs, a.time = b) ∨
      ((aggregateWith m limit cs).length = limit ∧
        ∀ a ∈ aggregateWith m limit cs, b < a.time) := by
  obtain ⟨a, haMem, haTime⟩ := (bucketAgg_mem_time_iff m cs b).mpr hne
  have haAll : a ∈ sortByTime (bucketAgg m cs) :=
    (sortByTime_perm _).mem_iff.mpr haMem
  unfold aggregateWith
  by_cases h : limit < (sortByTime (bucketAgg m cs)).length
  · simp only [if_pos h]
    set all := sortByTime (bucketAgg m cs) with hall
    set k := all.length - limit with hk
    have hsplit : all.take k ++ all.drop k = all := List.take_append_drop k all
    rcases List.mem_append.mp (hsplit ▸ haAll) with hTake | hDrop
    · right
      have hsorted : all.Pairwise timeLT := sorted_bucketAgg_pairwise m cs
      have hcross : ∀ x ∈ all.take k, ∀ y ∈ all.drop k, timeLT x y := by
        have := hsplit ▸ hsorted
        exact (List.pairwise_append.mp this).2.2
      constructor
      · rw [takeLast_length]; omega
      · intro a' ha'
        have : timeLT a a' := hcross a hTake a' ha'
        simpa [timeLT, haTime] using this
    · left
      exact ⟨a, hDrop, haTime⟩
  · simp only [if_neg h]
    exact Or.inl ⟨a, haAll, haTime⟩

theorem aggregate_1m_eq {interval : String} {m : Nat}
    (h : slookup interval TIMEFRAME_MINUTES = some m)
    (cs : List RepoCandle) (limit : Nat) :
    aggregate_1m_candles cs interval limit = aggregateWith m limit cs := by
  unfold aggregate_1m_candles
  rw [h]

/-- Claim C4: for every ascending 1-minute series and every aggregatable
timeframe, each output bucket of the aggregator starts at
`floor(open_time / width) * width` and folds open/high/low/close/volume as
first / max / min / last / sum over its in-bucket candles; and the spec's
three 1-minute candles at 0s, 60s, 120s collapse under a 180-second
(3-minute) bucket width into the single candle
`{open_time 0, open 100, high 108, low 99, close 105, volume 30}`. -/
theorem C4_bucket_fold :
    (∀ (interval : String) (m : Nat),
      slookup interval TIMEFRAME_MINUTES = some m →
      ∀ (cs : List RepoCandle) (limit : Nat), cs.Pairwise timeLT →
      ∀ a ∈ aggregate_1m_candles cs interval limit,
        inBucket m a.time cs ≠ [] ∧
        (∀ c ∈ inBucket m a.time cs,
          a.time = c.time / (m * 60) * (m * 60)) ∧
        firstOpen (inBucket m a.time cs) = some a.«open» ∧
        a.high = qmax ((inBucket m a.time cs).map RepoCandle.high) ∧
        a.low = qmin ((inBucket m a.time cs).map RepoCandle.low) ∧
        lastClose (inBucket m a.time cs) = some a.close ∧
        a.volume = ((inBucket m a.time cs).map RepoCandle.volume).sum) ∧
    aggregateWith 3 1 specCandles1m = [⟨0, 100, 108, 99, 105, 30⟩] := by
  constructor
  · intro interval m hm cs limit _ a ha
    rw [aggregate_1m_eq hm] at ha
    have hsum := bucketAgg_summary m cs a (mem_aggregateWith ha)
    refine ⟨hsum.1, ?_, hsum.2.1, hsum.2.2.1, hsum.2.2.2.1,
      hsum.2.2.2.2.1, hsum.2.2.2.2.2⟩
    intro c hc
    rw [← bucketOf_eq_floor, mem_inBucket_bucketOf hc]
  · norm_num [aggregateWith, sortByTime, bucketAgg, mergeBucket, bucketOf,
      specCandles1m, List.insertionSort, List.orderedInsert, takeLast, timeLE]

/-- Witness for C4 at the spec scenario aggregated with the supported
5-minute timeframe (same single bucket): the fold's last-close equation
holds concretely. -/
theorem C4_bucket_fold_witness :
    lastClose (inBucket 5 (0 : Nat) specCandles1m) = some 105 := by
  have hmem : (⟨0, 100, 108, 99, 105, 30⟩ : RepoCandle) ∈
      aggregate_1m_candles specCandles1m "5m" 3 := by
    norm_num [aggregate_1m_candles, slookup, TIMEFRAME_MINUTES, aggregateWith,
      sortByTime, bucketAgg, mergeBucket, bucketOf, specCandles1m,
      List.insertionSort, List.orderedInsert, takeLast, timeLE]
  have hpair : specCandles1m.Pairwise timeLT := by
    norm_num [specCandles1m, timeLT, List.pairwise_cons]
  have h := C4_bucket_fold.1 "5m" 5 rfl specCandles1m 3 hpair
    ⟨0, 100, 108, 99, 105, 30⟩ hmem
  exact h.2.2.2.2.2.1

/-- Claim C8: for every input list, positive limit and aggregatable
timeframe, the aggregator's output is strictly ascending by bucket start;
every output entry corresponds to a nonempty input bucket; and every
nonempty input bucket either appears in the output or the output holds
exactly `limit` strictly more recent buckets. -/
theorem C8_sorted_and_recent (interval : String) (m : Nat)
    (hm : slookup interval TIMEFRAME_MINUTES = some m)
    (cs : List RepoCandle) (limit : Nat) (hl : 0 < limit) :
    (aggregate_1m_candles cs interval limit).Pairwise timeLT ∧
    (∀ a ∈ aggregate_1m_candles cs interval limit,
      inBucket m a.time cs ≠ []) ∧
    (∀ b : Nat, inBucket m b cs ≠ [] →
      (∃ a ∈ aggregate_1m_candles cs interval limit, a.time = b) ∨
      ((aggregate_1m_candles cs interval limit).length = limit ∧
        ∀ a ∈ aggregate_1m_candles cs interval limit, b < a.time)) := by
  rw [aggregate_1m_eq hm]
  exact ⟨aggregateWith_pairwise m limit cs,
    fun a ha => (bucketAgg_summary m cs a (mem_aggregateWith ha)).1,
    fun b hb => aggregateWith_keeps_recent m limit cs b hb⟩

/-- Witness for C8: the concrete scenario output is strictly ascending. -/
theorem C8_sorted_and_recent_witness :
    (aggregate_1m_candles specCandles1m "5m" 1).Pairwise timeLT :=
  (C8_sorted_and_recent "5m" 5 rfl specCandles1m 1 (by norm_num)).1

/-- Claim C9: for every input list (even unordered, with duplicate
timestamps) and positive limit, the in-memory aggregator emits strictly
increasing, pairwise-distinct bucket times, and at most `limit` entries. -/
theorem C9_distinct_and_bounded (interval : String) (cs : List RepoCandle)
    (limit : Nat) (hl : 0 < limit) :
    (aggregate_1m_candles cs interval limit).Pairwise timeLT ∧
    (aggregate_1m_candles cs interval limit).length ≤ limit := by
  unfold aggregate_1m_candles
  cases h : slookup interval TIMEFRAME_MINUTES with
  | none => simp
  | some m => exact ⟨aggregateWith_pairwise m limit cs,
      aggregateWith_length m limit cs⟩

/-- Witness for C9 on an unordered input with a duplicate timestamp. -/
theorem C9_distinct_and_bounded_witness :
    (aggregate_1m_candles unorderedCandles1m "5m" 1).Pairwise timeLT ∧
    (aggregate_1m_candles unorderedCandles1m "5m" 1).length ≤ 1 :=
  C9_distinct_and_bounded "5m" unorderedCandles1m 1 (by norm_num)

/-! ### Resolution-engine lemmas -/

/-- The repository candle dictionaries carry no `open_time` key, so the
API-layer model conversion of `price.py` line 59 always raises `KeyError`. -/
theorem buildCandle_toDict (c : RepoCandle) : buildCandle c.toDict = none :=
  rfl

theorem buildCandles_of_ne_nil {cs : List RepoCandle} (h : cs ≠ []) :
    buildCandles cs = none := by
  cases cs with
  | nil => exact absurd rfl h
  | cons c rest => simp [buildCandles, buildCandle_toDict]

theorem get_candles_coin_none {env : Env} (h : env.coinId = none)
    (interval : String) (limit : Nat) :
    get_candles env interval limit = [] := by
  unfold get_candles
  rw [h]

theorem get_candles_agg_unsupported {interval : String} (h1 : interval ≠ "1m")
    (h2 : slookup interval TIMEFRAME_MINUTES = none) (env : Env)
    (limit : Nat) : get_candles env interval limit = [] := by
  unfold get_candles
  cases env.coinId with
  | none => rfl
  | some _ =>
    simp only [if_neg h1, aggregate_1m_candles, h2]
    split <;> rfl

/-- When the persistent path yields nothing, a cache-missed resolution is
the Binance fallback: one upstream call, one cache write with the
interval's TTL, the normalized klines as the response body. -/
theorem price_fallback_of_empty (env : Env) (symbol interval : String)
    (limit? : Option Nat) (ks : List Kline)
    (hsup : is_supported_interval interval = true)
    (hc : env.cached = none) (hdb : env.dbFails = false)
    (hcd : ∀ lim : Nat, get_candles env interval lim = [])
    (hk : env.klines = some ks) (hw : env.cacheSetFails = false) :
    get_price_history env symbol interval limit? =
      (Outcome.response ⟨upper symbol, interval, ks.map normKline⟩,
        ⟨1, 1, 1, [(slookup interval ttl_map).getD 60]⟩) := by
  unfold get_price_history
  rw [hsup, hc, hdb]
  simp only [Bool.true_eq_false, not_false_eq_true, if_neg, hcd,
    List.isEmpty_nil, if_true, if_false]
  simp [fallbackPath, hk, hw, Effects.none]

/-- Claim C5: a timeframe outside the interval catalog fails immediately
with the unsupported-interval error, with no cache read or write, no
database query, and no upstream call. -/
theorem C5_unsupported_fails_fast (env : Env) (symbol interval : String)
    (limit? : Option Nat) (h : is_supported_interval interval = false) :
    get_price_history env symbol interval limit? =
      (Outcome.unsupported, Effects.none) := by
  unfold get_price_history
  rw [h]
  simp

/-- Witness for C5 at the spec's example timeframe `2m`. -/
theorem C5_unsupported_fails_fast_witness :
    get_price_history emptyEnv "BTCUSDT" "2m" (some 10) =
      (Outcome.unsupported, Effects.none) :=
  C5_unsupported_fails_fast emptyEnv "BTCUSDT" "2m" (some 10) rfl

/-- Claim C6: when the symbol resolves to no coin id, a cache-missed
resolution calls the upstream client exactly once and returns its
normalized result, wrapped and cached. -/
theorem C6_unknown_symbol_upstream_once (env : Env) (symbol interval : String)
    (limit? : Option Nat) (ks : List Kline)
    (hsup : is_supported_interval interval = true)
    (hc : env.cached = none) (hid : env.coinId = none)
    (hdb : env.dbFails = false) (hk : env.klines = some ks)
    (hw : env.cacheSetFails = false) :
    get_price_history env symbol interval limit? =
      (Outcome.response ⟨upper symbol, interval, ks.map normKline⟩,
        ⟨1, 1, 1, [(slookup interval ttl_map).getD 60]⟩) :=
  price_fallback_of_empty env symbol interval limit? ks hsup hc hdb
    (fun lim => get_candles_coin_none hid interval lim) hk hw

/-- Witness for C6. -/
theorem C6_unknown_symbol_upstream_once_witness :
    get_price_history unknownSymbolEnv "btcusdt" "1m" (some 1) =
      (Outcome.response ⟨"BTCUSDT", "1m",
        [⟨0, 1, 2, 1, 2, 3, 59999⟩]⟩, ⟨1, 1, 1, [5]⟩) := by
  have h := C6_unknown_symbol_upstream_once unknownSymbolEnv "btcusdt" "1m"
    (some 1) [⟨0, 1, 2, 1, 2, 3, 59999⟩] rfl rfl rfl rfl rfl rfl
  rw [h]
  rfl

/-- Claim C10: the eight supported timeframes the in-memory aggregator
cannot build (3m, 30m, 2h, 6h, 8h, 12h, 3d, 1M) pass validation but make
the persistent path yield an empty series in every environment, so every
cache-missed resolution for them is served by the upstream fallback. -/
theorem C10_unaggregatable_upstream :
    ∀ interval ∈ (["3m", "30m", "2h", "6h", "8h", "12h", "3d", "1M"] :
        List String),
      is_supported_interval interval = true ∧
      (∀ (env : Env) (limit : Nat), get_candles env interval limit = []) ∧
      (∀ (env : Env) (symbol : String) (limit? : Option Nat)
          (ks : List Kline),
        env.cached = none → env.dbFails = false → env.klines = some ks →
        env.cacheSetFails = false →
        get_price_history env symbol interval limit? =
          (Outcome.response ⟨upper symbol, interval, ks.map normKline⟩,
            ⟨1, 1, 1, [(slookup interval ttl_map).getD 60]⟩)) := by
  intro interval hmem
  have h1 : interval ≠ "1m" ∧ slookup interval TIMEFRAME_MINUTES = none ∧
      is_supported_interval interval = true := by
    fin_cases hmem <;> exact ⟨by decide, rfl, rfl⟩
  refine ⟨h1.2.2, fun env limit =>
    get_candles_agg_unsupported h1.1 h1.2.1 env limit, ?_⟩
  intro env symbol limit? ks hc hdb hk hw
  exact price_fallback_of_empty env symbol interval limit? ks h1.2.2 hc hdb
    (fun lim => get_candles_agg_unsupported h1.1 h1.2.1 env lim) hk hw

/-- Witness for C10: with 1-minute data present, a `3m` request still
yields an empty persistent series and is answered by the fallback. -/
theorem C10_unaggregatable_upstream_witness :
    get_candles storedDataEnv "3m" 10 = [] ∧
    get_price_history storedDataEnv "BTCUSDT" "3m" (some 10) =
      (Outcome.response ⟨"BTCUSDT", "3m", [⟨0, 1, 2, 1, 2, 3, 59999⟩]⟩,
        ⟨1, 1, 1, [60]⟩) := by
  have h := C10_unaggregatable_upstream "3m" (by norm_num)
  constructor
  · exact h.2.1 storedDataEnv 10
  · have h2 := h.2.2 storedDataEnv "BTCUSDT" (some 10)
      [⟨0, 1, 2, 1, 2, 3, 59999⟩] rfl rfl rfl rfl
    rw [h2]
    rfl

/-- Claim C1 (code bug): with a cache miss and a non-empty persistent
series, the endpoint does NOT return the stored series — the conversion
`Candle(open_time=c["open_time"], …)` raises `KeyError` because the
repository dictionaries are keyed `time`, the catch-all swallows it, and
the Binance fallback answers instead (one upstream call, the fallback
response cached and returned). -/
theorem C1_keyerror_discards_persistent_series :
    get_candles dbOneCandleEnv "1m" 1 = [⟨0, 100, 105, 99, 103, 10⟩] ∧
    buildCandles (get_candles dbOneCandleEnv "1m" 1) = none ∧
    get_price_history dbOneCandleEnv "BTCUSDT" "1m" (some 1) =
      (Outcome.response ⟨"BTCUSDT", "1m", [⟨0, 1, 2, 1, 2, 3, 59999⟩]⟩,
        ⟨1, 1, 1, [5]⟩) :=
  ⟨rfl, rfl, rfl⟩

/-- Counterexample to claim C2: a failure of the (fallback-path) cache
write surfaces an uncaught error to the caller instead of being logged
only. -/
theorem C2_counterexample_cache_write_surfaces :
    get_price_history cacheFailEnv "BTCUSDT" "1m" (some 1) =
      (Outcome.err ErrKind.cacheSetFailed, ⟨1, 1, 1, [5]⟩) :=
  rfl

/-- Claim C2 as amended: a failing cache write is fatal to the request —
on any cache-missed resolution with a reachable upstream, a raising
`cache.set` ends the request with an uncaught error (the fallback-path
write at `price.py` line 126 is outside every `try`; the persistent-path
write failure is caught but then diverts to the fallback, whose write
fails again). -/
theorem C2_amended_cache_write_fatal (env : Env) (symbol interval : String)
    (limit? : Option Nat) (ks : List Kline)
    (hsup : is_supported_interval interval = true)
    (hc : env.cached = none) (hk : env.klines = some ks)
    (hw : env.cacheSetFails = true) :
    (get_price_history env symbol interval limit?).1 =
      Outcome.err ErrKind.cacheSetFailed := by
  unfold get_price_history
  rw [hsup, hc]
  have hfb : ∀ eff : Effects,
      (fallbackPath env symbol interval eff).1 =
        Outcome.err ErrKind.cacheSetFailed := by
    intro eff
    unfold fallbackPath
    rw [hk, hw]
    simp
  simp only []
  by_cases hdb : env.dbFails
  · simp [hdb, hfb]
  · simp only [hdb, Bool.false_eq_true, if_false, if_neg]
    by_cases hcd : (get_candles env interval
        (limit?.getD ((slookup interval limit_map).getD 500))).isEmpty
    · simp [hcd, hfb]
    · simp only [hcd, if_false]
      have hne : get_candles env interval
          (limit?.getD ((slookup interval limit_map).getD 500)) ≠ [] := by
        intro hx
        rw [hx] at hcd
        exact hcd rfl
      rw [buildCandles_of_ne_nil hne]
      simp [hfb, hw]

/-- Witness for the amended C2. -/
theorem C2_amended_cache_write_fatal_witness :
    (get_price_history cacheFailEnv "BTCUSDT" "1m" (some 1)).1 =
      Outcome.err ErrKind.cacheSetFailed :=
  C2_amended_cache_write_fatal cacheFailEnv "BTCUSDT" "1m" (some 1)
    [⟨0, 1, 2, 1, 2, 3, 59999⟩] rfl rfl rfl rfl

theorem get_candles_1m_some {env : Env} {cid : Nat}
    (h : env.coinId = some cid) (limit : Nat) :
    get_candles env "1m" limit =
      mergeFresh env.fresh (takeLast limit env.db1m) := by
  unfold get_candles
  rw [h]
  simp

theorem mergeFresh_of_any {f : Fresh1m} {cs : List RepoCandle}
    (h : cs.any (fun c => c.time == f.time) = true) :
    mergeFresh (some (some f)) cs = cs := by
  simp [mergeFresh, h]

theorem mergeFresh_of_not_any {f : Fresh1m} {cs : List RepoCandle}
    (h : cs.any (fun c => c.time == f.time) = false) :
    mergeFresh (some (some f)) cs = cs ++ [f.toRepo] := by
  simp only [mergeFresh, h]
  rfl

theorem any_time_eq_false {f : Fresh1m} {cs : List RepoCandle}
    (h : ∀ c ∈ cs, c.time ≠ f.time) :
    cs.any (fun c => c.time == f.time) = false := by
  rw [← Bool.not_eq_true, List.any_eq_true]
  rintro ⟨c, hc, hEq⟩
  exact h c hc (by simpa using hEq)

theorem countP_time_le_one {l : List RepoCandle} (h : l.Pairwise timeLT)
    (t : Nat) : l.countP (fun c => c.time == t) ≤ 1 := by
  induction l with
  | nil => simp
  | cons a rest ih =>
    have hrest := (List.pairwise_cons.mp h).2
    by_cases ha : a.time = t
    · have hzero : rest.countP (fun c => c.time == t) = 0 := by
        rw [List.countP_eq_zero]
        intro c hc
        have : a.time < c.time := (List.pairwise_cons.mp h).1 c hc
        simp only [beq_iff_eq]
        omega
      rw [List.countP_cons]
      simp [ha, hzero]
    · rw [List.countP_cons]
      have : ((fun c : RepoCandle => c.time == t) a : Bool) = false := by
        simp [ha]
      simp only [this, if_false]
      simpa using ih hrest

theorem takeLast_pairwise {l : List RepoCandle} (h : l.Pairwise timeLT)
    (n : Nat) : (takeLast n l).Pairwise timeLT :=
  h.sublist (takeLast_sublist n l)

theorem get_candles_agg_mem {env : Env} {interval : String}
    {limit m : Nat} {a : RepoCandle} (h1 : interval ≠ "1m")
    (hm : slookup interval TIMEFRAME_MINUTES = some m)
    (ha : a ∈ get_candles env interval limit) :
    a ∈ aggregateWith m limit
      (mergeFresh env.fresh (takeLast (limit * m) env.db1m)) := by
  unfold get_candles at ha
  cases hcoin : env.coinId with
  | none => rw [hcoin] at ha; cases ha
  | some cid =>
    rw [hcoin] at ha
    rw [if_neg h1] at ha
    simp only [hm, Option.getD_some] at ha
    split at ha
    · cases ha
    · rw [aggregate_1m_eq hm] at ha
      exact ha

/-- Counterexample to claim C3: for an aggregated timeframe the fresh
candle is NOT appended as the final element even though its open time
(120) is strictly greater than the last closed bucket's open time (0) —
it is folded into that bucket instead, and no element of the returned
series carries open time 120. -/
theorem C3_counterexample_fresh_folded :
    aggregate_1m_candles (takeLast (10 * 5) midBucketFreshEnv.db1m) "5m" 10 =
      [⟨0, 100, 108, 99, 107, 22⟩] ∧
    (0 : Nat) < 120 ∧
    get_candles midBucketFreshEnv "5m" 10 = [⟨0, 100, 108, 99, 105, 30⟩] ∧
    ∀ a ∈ get_candles midBucketFreshEnv "5m" 10, a.time ≠ 120 := by
  have h5 : ¬ ("5m" : String) = "1m" := by decide
  refine ⟨?_, by norm_num, ?_, ?_⟩
  · norm_num [aggregate_1m_candles, slookup, TIMEFRAME_MINUTES, aggregateWith,
      sortByTime, bucketAgg, mergeBucket, bucketOf, takeLast,
      midBucketFreshEnv, List.insertionSort, List.orderedInsert, timeLE]
  · norm_num [get_candles, midBucketFreshEnv, mergeFresh, Fresh1m.toRepo,
      aggregate_1m_candles, slookup, TIMEFRAME_MINUTES, aggregateWith,
      sortByTime, bucketAgg, mergeBucket, bucketOf, takeLast,
      List.insertionSort, List.orderedInsert, timeLE, h5]
  · norm_num [get_candles, midBucketFreshEnv, mergeFresh, Fresh1m.toRepo,
      aggregate_1m_candles, slookup, TIMEFRAME_MINUTES, aggregateWith,
      sortByTime, bucketAgg, mergeBucket, bucketOf, takeLast,
      List.insertionSort, List.orderedInsert, timeLE, h5]

/-- Claim C3 as amended: the fresh snapshot is merged into the 1-minute
series *before* aggregation.  For the base timeframe 1m: a fresh open
time that matches a fetched candle's time is skipped (and the match
appears at most once when the store is strictly ascending), while a fresh
open time newer than every fetched candle is appended as the final
element.  For an aggregated timeframe the fresh candle is folded into the
bucket `floor(time/width)*width`, so every element of the returned series
carries a bucket-aligned open time (a multiple of the bucket width), not
the fresh open time. -/
theorem C3_amended_fresh_merge (env : Env) (cid : Nat) (f : Fresh1m)
    (limit : Nat) (hid : env.coinId = some cid)
    (hf : env.fresh = some (some f)) :
    ((takeLast limit env.db1m).any (fun c => c.time == f.time) = true →
      get_candles env "1m" limit = takeLast limit env.db1m ∧
      (env.db1m.Pairwise timeLT →
        (get_candles env "1m" limit).countP
          (fun c => c.time == f.time) ≤ 1)) ∧
    ((∀ c ∈ takeLast limit env.db1m, c.time < f.time) →
      get_candles env "1m" limit = takeLast limit env.db1m ++ [f.toRepo]) ∧
    (∀ (interval : String) (m : Nat), interval ≠ "1m" →
      slookup interval TIMEFRAME_MINUTES = some m →
      ∀ a ∈ get_candles env interval limit, a.time % (m * 60) = 0) := by
  refine ⟨?_, ?_, ?_⟩
  · intro hany
    have heq : get_candles env "1m" limit = takeLast limit env.db1m := by
      rw [get_candles_1m_some hid, hf, mergeFresh_of_any hany]
    refine ⟨heq, ?_⟩
    intro hdb
    rw [heq]
    exact countP_time_le_one (takeLast_pairwise hdb limit) f.time
  · intro hlt
    rw [get_candles_1m_some hid, hf, mergeFresh_of_not_any
      (any_time_eq_false (fun c hc => Nat.ne_of_lt (hlt c hc)))]
  · intro interval m h1 hm a ha
    have hmem := get_candles_agg_mem h1 hm ha
    have hsum := bucketAgg_summary m _ a (mem_aggregateWith hmem)
    obtain ⟨c, hc⟩ := List.exists_mem_of_ne_nil _ hsum.1
    have hb := mem_inBucket_bucketOf hc
    rw [← hb, bucketOf_eq_floor]
    exact Nat.mul_mod_left _ _

/-- Witness for the amended C3: a strictly newer fresh candle ends the
returned 1-minute series. -/
theorem C3_amended_fresh_merge_witness :
    get_candles freshAppendEnv "1m" 5 =
      takeLast 5 freshAppendEnv.db1m ++
        [Fresh1m.toRepo ⟨60, 103, 108, 102, 107, 12⟩] :=
  (C3_amended_fresh_merge freshAppendEnv 1 ⟨60, 103, 108, 102, 107, 12⟩ 5
    rfl rfl).2.1 (by decide)

/-- Counterexample to claim C7: the persistent path can return a series
that is not ascending — a stale fresh candle with an older, unseen
timestamp is appended after the newest stored candle on the 1m path. -/
theorem C7_counterexample_stale_fresh :
    get_candles staleFreshEnv "1m" 5 =
      [⟨60, 103, 108, 102, 107, 12⟩, ⟨0, 100, 105, 99, 103, 10⟩] ∧
    ¬ (get_candles staleFreshEnv "1m" 5).Pairwise timeLT := by
  have h : get_candles staleFreshEnv "1m" 5 =
      [⟨60, 103, 108, 102, 107, 12⟩, ⟨0, 100, 105, 99, 103, 10⟩] := rfl
  refine ⟨h, ?_⟩
  rw [h]
  intro hp
  have := (List.pairwise_cons.mp hp).1 _ (List.mem_singleton.mpr rfl)
  simp only [timeLT] at this
  omega

/-- Claim C7 as amended: an aggregated-timeframe series from the
persistent path is always strictly ascending with distinct open times;
the base-1m series is strictly ascending provided the store is strictly
ascending and the merged fresh candle (if any) either repeats a fetched
timestamp or is strictly newer than every fetched candle. -/
theorem C7_amended_series_order (env : Env) (interval : String)
    (limit : Nat) :
    (interval ≠ "1m" → (get_candles env interval limit).Pairwise timeLT) ∧
    (env.db1m.Pairwise timeLT →
      (∀ f : Fresh1m, env.fresh = some (some f) →
        (takeLast limit env.db1m).any (fun c => c.time == f.time) = true ∨
        ∀ c ∈ takeLast limit env.db1m, c.time < f.time) →
      (get_candles env "1m" limit).Pairwise timeLT) := by
  constructor
  · intro h1
    unfold get_candles
    cases env.coinId with
    | none => exact List.Pairwise.nil
    | some cid =>
      rw [if_neg h1]
      cases hsl : slookup interval TIMEFRAME_MINUTES with
      | none =>
        simp only [hsl, aggregate_1m_candles]
        split <;> exact List.Pairwise.nil
      | some m =>
        simp only [hsl, aggregate_1m_candles, Option.getD_some]
        split
        · exact List.Pairwise.nil
        · exact aggregateWith_pairwise m limit _
  · intro hdb hfr
    cases hcoin : env.coinId with
    | none =>
      unfold get_candles
      rw [hcoin]
      exact List.Pairwise.nil
    | some cid =>
      rw [get_candles_1m_some hcoin]
      have hrows := takeLast_pairwise hdb limit
      cases hfresh : env.fresh with
      | none => exact hrows
      | some o =>
        cases o with
        | none => exact hrows
        | some f =>
          rcases hfr f hfresh with hany | hlt
          · rw [mergeFresh_of_any hany]
            exact hrows
          · rw [mergeFresh_of_not_any
              (any_time_eq_false (fun c hc => Nat.ne_of_lt (hlt c hc)))]
            rw [List.pairwise_append]
            refine ⟨hrows, List.pairwise_singleton _ _, ?_⟩
            intro c hc b hb
            rw [List.mem_singleton.mp hb]
            exact hlt c hc

/-- Witness for the amended C7 on the aggregated path. -/
theorem C7_amended_series_order_witness :
    (get_candles storedDataEnv "5m" 2).Pairwise timeLT :=
  (C7_amended_series_order storedDataEnv "5m" 2).1 (by decide)
